import Mathlib

/-!
Shallow embedding of the kalkulator expression evaluator (src/lib.rs):
an infix-to-postfix converter (shunting yard), a stack-based postfix
evaluator, and a memoizing factorial helper backed by a process-wide
cache.  Machine integers (Rust i64 / usize) are modelled as Int / Nat
with explicit range checks and wrapping where the source has them; the
global mutable factorial cache is modelled by explicit state passing
(every operation takes the cache and returns the possibly extended
cache).
-/

namespace Kalkulator

/-- Mirrors enum ErrorKind in src/lib.rs. -/
inductive ErrorKind where
  | InvalidExpression
  | InsufficientOperands
  | DivisionByZero
  | Overflow
  | InvalidToken
  | MalformedExpression
deriving DecidableEq, Repr

/-- Smallest i64 value, -2^63. -/
def i64Min : Int := -9223372036854775808

/-- Largest i64 value, 2^63 - 1. -/
def i64Max : Int := 9223372036854775807

/-- 2^64, the modulus of 64-bit machine arithmetic. -/
def usizeMod : Int := 18446744073709551616

/-- Rust i64::checked_mul: the product when it is representable in i64,
none on overflow. -/
def checkedMul (a b : Int) : Option Int :=
  if i64Min ≤ a * b ∧ a * b ≤ i64Max then some (a * b) else none

/-- Rust cast `i as i64` for a usize value i < 2^64: values below 2^63 are
kept, larger ones wrap to negatives. -/
def usizeToI64 (i : Nat) : Int :=
  if (i : Int) ≤ i64Max then (i : Int) else (i : Int) - usizeMod

/-- Rust cast `a as usize` for an i64 value a (64-bit platform): reduce
modulo 2^64 into 0 .. 2^64 - 1, so negative values become huge indices. -/
def i64ToUsize (a : Int) : Nat := (a % usizeMod).toNat

/-- Rust wrapping of a 64-bit signed arithmetic result (release-build
semantics of unchecked + - * in compute_expression). -/
def wrap64 (z : Int) : Int :=
  (z + 9223372036854775808) % usizeMod - 9223372036854775808

/-- Mirrors Expression::precedence in src/lib.rs. -/
def precedence (operator : Char) : Nat :=
  if operator = '+' ∨ operator = '-' then 1
  else if operator = '*' ∨ operator = '/' then 2
  else 0

/-- Mirrors Expression::has_higher_precedence in src/lib.rs. -/
def hasHigherPrecedence (op1 op2 : Char) : Bool :=
  decide (precedence op1 > precedence op2)

/-- Mirrors Expression::flush_num_buffer: if the number buffer is nonempty,
push the collected digit string onto the output queue and clear the
buffer; returns the new buffer and output queue. -/
def flushNumBuffer (numberBuffer : List Char) (output : List String) :
    List Char × List String :=
  if numberBuffer.isEmpty then (numberBuffer, output)
  else ([], output ++ [String.mk numberBuffer])

/-- Inner while-loop of the binary-operator arm of infix_to_postfix
(src/lib.rs lines 144-149): pop operators to the output while the stack
top is neither a left parenthesis nor of lower-or-equal precedence than
the incoming operator.  The operator stack has its top at the head. -/
def popWhile (incoming : Char) (stack : List Char) (output : List String) :
    List Char × List String :=
  match stack with
  | [] => ([], output)
  | operation :: restStack =>
    if operation = '(' ∨ hasHigherPrecedence operation incoming = false then
      (operation :: restStack, output)
    else popWhile incoming restStack (output ++ [String.mk [operation]])

/-- Inner while-loop of the right-parenthesis arm of infix_to_postfix
(src/lib.rs lines 159-164): pop and emit operators until a left
parenthesis is popped and discarded; an empty stack just ends the loop. -/
def popUntilParen (stack : List Char) (output : List String) :
    List Char × List String :=
  match stack with
  | [] => ([], output)
  | op :: restStack =>
    if op = '(' then (restStack, output)
    else popUntilParen restStack (output ++ [String.mk [op]])

/-- Final drain of the operator stack at end of input (src/lib.rs lines
173-178): emit remaining operators; a left parenthesis still on the stack
is an unbalanced opening parenthesis and fails. -/
def drainStack (stack : List Char) (output : List String) :
    Except ErrorKind (List String) :=
  match stack with
  | [] => .ok output
  | op :: restStack =>
    if op = '(' then .error .MalformedExpression
    else drainStack restStack (output ++ [String.mk [op]])

/-- Character scan of Expression::infix_to_postfix, one step per input
character, carrying the pending number buffer, the operator stack (top at
head) and the output queue. -/
def infixToPostfixAux (tokens : List Char) (numberBuffer : List Char)
    (stack : List Char) (output : List String) :
    Except ErrorKind (List String) :=
  match tokens with
  | [] => drainStack stack (flushNumBuffer numberBuffer output).2
  | ch :: rest =>
    if '0' ≤ ch ∧ ch ≤ '9' then
      infixToPostfixAux rest (numberBuffer ++ [ch]) stack output
    else if ch = '!' then
      infixToPostfixAux rest (flushNumBuffer numberBuffer output).1 stack
        ((flushNumBuffer numberBuffer output).2 ++ ["!"])
    else if ch = ' ' then
      infixToPostfixAux rest (flushNumBuffer numberBuffer output).1 stack
        (flushNumBuffer numberBuffer output).2
    else if ch = '+' ∨ ch = '-' ∨ ch = '*' ∨ ch = '/' then
      infixToPostfixAux rest (flushNumBuffer numberBuffer output).1
        (ch :: (popWhile ch stack (flushNumBuffer numberBuffer output).2).1)
        (popWhile ch stack (flushNumBuffer numberBuffer output).2).2
    else if ch = '(' then
      infixToPostfixAux rest numberBuffer (ch :: stack) output
    else if ch = ')' then
      infixToPostfixAux rest (flushNumBuffer numberBuffer output).1
        (popUntilParen stack (flushNumBuffer numberBuffer output).2).1
        (popUntilParen stack (flushNumBuffer numberBuffer output).2).2
    else .error .InvalidExpression

/-- Mirrors Expression::infix_to_postfix: scan the characters, then join
the output queue with single spaces. -/
def infixToPostfix (s : String) : Except ErrorKind String :=
  match infixToPostfixAux s.toList [] [] [] with
  | .ok output => .ok (String.intercalate " " output)
  | .error e => .error e

/-- Body of the `for i in cache.len()..=n` loop of Expression::factorial:
`fuel` is the number of remaining loop iterations (n + 1 - i), `i` the
current index.  Each step multiplies the last cached value by the index
with i64 overflow checking; on overflow the loop stops with failure,
keeping the entries pushed so far.  Rust reads the last entry with
`cache.last().unwrap()`, which panics on an empty cache; that state is
unreachable from the seeded cache, and the model returns the default 1
there. -/
def factExtendAux (fuel : Nat) (i : Nat) (cache : List Int) :
    Bool × List Int :=
  match fuel with
  | 0 => (true, cache)
  | fuel + 1 =>
    match checkedMul (cache.getLastD 1) (usizeToI64 i) with
    | some result => factExtendAux fuel (i + 1) (cache ++ [result])
    | none => (false, cache)

/-- Mirrors Expression::factorial with the global FACTORIAL_CACHE made
explicit: if n is not yet cached, extend the cache index by index up to n
(checking each multiplication for i64 overflow), then look the value up;
returns the result together with the possibly extended cache. -/
def factorial (n : Nat) (cache : List Int) :
    Except ErrorKind Int × List Int :=
  if cache.length ≤ n then
    match factExtendAux (n + 1 - cache.length) cache.length cache with
    | (true, cache2) =>
      match cache2[n]? with
      | some v => (.ok v, cache2)
      | none => (.error .InvalidExpression, cache2)
    | (false, cache2) => (.error .Overflow, cache2)
  else
    match cache[n]? with
    | some v => (.ok v, cache)
    | none => (.error .InvalidExpression, cache)

/-- Value of a list of decimal digit characters, most significant first. -/
def digitsToNat (ds : List Char) : Nat :=
  ds.foldl (fun a c => a * 10 + (c.toNat - '0'.toNat)) 0

/-- Rust `token.parse::<i64>()`: an optional sign followed by one or more
ASCII digits, rejected when the value does not fit in i64. -/
def parseI64 (s : String) : Option Int :=
  match s.toList with
  | [] => none
  | c :: cs =>
    let neg : Bool := c = '-'
    let ds : List Char := if c = '-' ∨ c = '+' then cs else c :: cs
    if ds = [] then none
    else if ds.all (fun d => decide ('0' ≤ d ∧ d ≤ '9')) then
      let v : Int := if neg then -(digitsToNat ds : Int) else (digitsToNat ds : Int)
      if i64Min ≤ v ∧ v ≤ i64Max then some v else none
    else none

/-- Rust str::split_whitespace on the character list: split at whitespace,
dropping empty pieces; `acc` holds the characters of the current piece in
reverse. -/
def splitWsAux (cs : List Char) (acc : List Char) : List String :=
  match cs with
  | [] => if acc.isEmpty then [] else [String.mk acc.reverse]
  | c :: rest =>
    if c.isWhitespace then
      if acc.isEmpty then splitWsAux rest []
      else String.mk acc.reverse :: splitWsAux rest []
    else splitWsAux rest (c :: acc)

/-- Rust str::split_whitespace, as used on the postfix text. -/
def splitWhitespace (s : String) : List String := splitWsAux s.toList []

/-- Token loop of Expression::compute_expression, carrying the value stack
(top at head) and the factorial cache.  Binary operators pop the right
operand first; division fails on a zero right operand before dividing;
unchecked i64 addition, subtraction and multiplication wrap; a factorial
token casts its popped operand to usize and consults the cache; every
other token must parse as an i64.  At the end the stack must hold exactly
one value. -/
def evalTokens (tokens : List String) (stack : List Int) (cache : List Int) :
    Except ErrorKind Int × List Int :=
  match tokens with
  | [] =>
    match stack with
    | [v] => (.ok v, cache)
    | _ => (.error .MalformedExpression, cache)
  | token :: rest =>
    if token = "+" ∨ token = "-" ∨ token = "*" ∨ token = "/" then
      match stack with
      | operand2 :: operand1 :: stackRest =>
        if token = "/" ∧ operand2 = 0 then (.error .DivisionByZero, cache)
        else
          evalTokens rest
            ((if token = "+" then wrap64 (operand1 + operand2)
              else if token = "-" then wrap64 (operand1 - operand2)
              else if token = "*" then wrap64 (operand1 * operand2)
              else Int.tdiv operand1 operand2) :: stackRest)
            cache
      | _ => (.error .InsufficientOperands, cache)
    else if token = "!" then
      match stack with
      | a :: stackRest =>
        match factorial (i64ToUsize a) cache with
        | (.ok fact, cache2) => evalTokens rest (fact :: stackRest) cache2
        | (.error e, cache2) => (.error e, cache2)
      | [] => (.error .InsufficientOperands, cache)
    else
      match parseI64 token with
      | some num => evalTokens rest (num :: stack) cache
      | none => (.error .InvalidToken, cache)

/-- Mirrors Expression::compute_expression: split the stored postfix text
on whitespace and run the evaluator with an empty value stack. -/
def computeExpression (postfixText : String) (cache : List Int) :
    Except ErrorKind Int × List Int :=
  evalTokens (splitWhitespace postfixText) [] cache

/-- End-to-end pipeline of the crate doc examples: convert the infix text
to postfix, then evaluate the postfix text (Expression::infix_to_postfix
followed by Expression::compute_expression). -/
def evalInfix (s : String) (cache : List Int) :
    Except ErrorKind Int × List Int :=
  match infixToPostfix s with
  | .ok p => computeExpression p cache
  | .error e => (.error e, cache)

/-- The fully correct factorial cache of length k: entry i holds i!.
facts 2 = [1, 1] is the seed value of FACTORIAL_CACHE. -/
def facts (k : Nat) : List Int :=
  (List.range k).map (fun j => (Nat.factorial j : Int))

/-- The reachable states of FACTORIAL_CACHE: seeded with [1, 1] (length 2)
and extended only by factorial, every state is an initial segment of the
factorial table; entries are produced by checked i64 multiplication, so
the length never exceeds 21 (20! fits in i64, 21! does not). -/
def GoodCache (c : List Int) : Prop :=
  ∃ k, 2 ≤ k ∧ k ≤ 21 ∧ c = facts k

/-- Predicate deciding whether the binary-operator arm pops a given
stacked operator: it is not a left parenthesis and its precedence is
strictly greater than the incoming operator's. -/
def shouldPop (incoming op : Char) : Bool :=
  (!decide (op = '(')) && hasHigherPrecedence op incoming

instance {ε α : Type} [DecidableEq ε] [DecidableEq α] :
    DecidableEq (Except ε α) := fun a b =>
  match a, b with
  | .ok x, .ok y =>
    if h : x = y then .isTrue (h ▸ rfl)
    else .isFalse (fun hc => h (Except.ok.inj hc))
  | .error e, .error f =>
    if h : e = f then .isTrue (h ▸ rfl)
    else .isFalse (fun hc => h (Except.error.inj hc))
  | .ok _, .error _ => .isFalse (fun hc => Except.noConfusion hc)
  | .error _, .ok _ => .isFalse (fun hc => Except.noConfusion hc)

theorem facts_length (k : Nat) : (facts k).length = k := by
  simp [facts]

theorem facts_succ (k : Nat) :
    facts (k + 1) = facts k ++ [(Nat.factorial k : Int)] := by
  simp [facts, List.range_succ]

theorem goodCache_seed : GoodCache (facts 2) :=
  ⟨2, by omega, by omega, rfl⟩

theorem facts_getLastD (k : Nat) (h : 1 ≤ k) (d : Int) :
    (facts k).getLastD d = (Nat.factorial (k - 1) : Int) := by
  obtain ⟨m, rfl⟩ : ∃ m, k = m + 1 := ⟨k - 1, by omega⟩
  rw [facts_succ]
  simp

theorem facts_getElem? (k n : Nat) (h : n < k) :
    (facts k)[n]? = some (Nat.factorial n : Int) := by
  have hlen : n < (facts k).length := by rw [facts_length]; exact h
  rw [List.getElem?_eq_getElem hlen]
  simp [facts]

theorem facts_get (k i : Nat) (hi : i < (facts k).length) :
    (facts k).get ⟨i, hi⟩ = (Nat.factorial i : Int) := by
  simp [facts, List.get_eq_getElem]

theorem facts_prefix (k j : Nat) (h : k ≤ j) : facts k <+: facts j := by
  induction j, h using Nat.le_induction with
  | base => exact List.prefix_rfl
  | succ j hkj ih =>
    rw [facts_succ j]
    exact ih.trans (List.prefix_append _ _)

theorem fact20_le : Nat.factorial 20 ≤ 9223372036854775807 := by decide

theorem usizeToI64_small (i : Nat) (h : i ≤ 21) : usizeToI64 i = (i : Int) := by
  unfold usizeToI64 i64Max
  rw [if_pos (by omega)]

theorem checkedMul_fact (m : Nat) (h : m + 1 ≤ 20) :
    checkedMul (Nat.factorial m : Int) (usizeToI64 (m + 1)) =
      some (Nat.factorial (m + 1) : Int) := by
  rw [usizeToI64_small (m + 1) (by omega)]
  unfold checkedMul
  have hprod : (Nat.factorial m : Int) * ((m + 1 : Nat) : Int) =
      (Nat.factorial (m + 1) : Int) := by
    rw [Nat.factorial_succ]
    push_cast
    ring
  rw [hprod]
  have hle : (Nat.factorial (m + 1) : Int) ≤ i64Max := by
    have h1 : Nat.factorial (m + 1) ≤ Nat.factorial 20 := Nat.factorial_le h
    have h2 := fact20_le
    unfold i64Max
    omega
  have hge : i64Min ≤ (Nat.factorial (m + 1) : Int) := by
    have h0 : 0 ≤ (Nat.factorial (m + 1) : Int) := Int.ofNat_nonneg _
    unfold i64Min
    omega
  rw [if_pos ⟨hge, hle⟩]

theorem checkedMul21 : checkedMul (Nat.factorial 20 : Int) (usizeToI64 21) = none := by
  decide

theorem factExtendAux_facts :
    ∀ (fuel k : Nat), 2 ≤ k → k ≤ 21 →
      factExtendAux fuel k (facts k) =
        if fuel + k ≤ 21 then (true, facts (k + fuel)) else (false, facts 21) := by
  intro fuel
  induction fuel with
  | zero =>
    intro k h2 h21
    rw [if_pos (by omega : 0 + k ≤ 21)]
    rfl
  | succ fuel ih =>
    intro k h2 h21
    by_cases hk : k ≤ 20
    · obtain ⟨m, rfl⟩ : ∃ m, k = m + 1 := ⟨k - 1, by omega⟩
      have h1 : (facts (m + 1)).getLastD 1 = (Nat.factorial m : Int) := by
        rw [facts_getLastD (m + 1) (by omega)]
        simp
      simp only [factExtendAux, h1, checkedMul_fact m (by omega)]
      rw [← facts_succ (m + 1), ih (m + 1 + 1) (by omega) (by omega)]
      by_cases hc : fuel + 1 + (m + 1) ≤ 21
      · rw [if_pos (by omega : fuel + (m + 1 + 1) ≤ 21), if_pos hc,
          show m + 1 + 1 + fuel = m + 1 + (fuel + 1) from by omega]
      · rw [if_neg (by omega : ¬ fuel + (m + 1 + 1) ≤ 21), if_neg hc]
    · have hk21 : k = 21 := by omega
      subst hk21
      have h1 : (facts 21).getLastD 1 = (Nat.factorial 20 : Int) := by
        rw [facts_getLastD 21 (by omega)]
      simp only [factExtendAux, h1, checkedMul21]
      rw [if_neg (by omega : ¬ fuel + 1 + 21 ≤ 21)]

theorem factorial_facts (n k : Nat) (h2 : 2 ≤ k) (h21 : k ≤ 21) :
    (n < k → factorial n (facts k) = (.ok (Nat.factorial n : Int), facts k))
    ∧ (k ≤ n → n ≤ 20 →
        factorial n (facts k) = (.ok (Nat.factorial n : Int), facts (n + 1)))
    ∧ (k ≤ n → 21 ≤ n →
        factorial n (facts k) = (.error .Overflow, facts 21)) := by
  refine ⟨fun hnk => ?_, fun hkn hn20 => ?_, fun hkn hn21 => ?_⟩
  · simp only [factorial, facts_length, if_neg (by omega : ¬ k ≤ n),
      facts_getElem? k n hnk]
  · have hfe := factExtendAux_facts (n + 1 - k) k h2 h21
    rw [if_pos (by omega : n + 1 - k + k ≤ 21),
      show k + (n + 1 - k) = n + 1 from by omega] at hfe
    simp only [factorial, facts_length, if_pos hkn, hfe,
      facts_getElem? (n + 1) n (by omega)]
  · have hfe := factExtendAux_facts (n + 1 - k) k h2 h21
    rw [if_neg (by omega : ¬ n + 1 - k + k ≤ 21)] at hfe
    simp only [factorial, facts_length, if_pos hkn, hfe]

theorem factorial_fst (n : Nat) (c : List Int) (h : GoodCache c) :
    (factorial n c).1 =
      if n ≤ 20 then Except.ok (Nat.factorial n : Int)
      else Except.error ErrorKind.Overflow := by
  obtain ⟨k, h2, h21, rfl⟩ := h
  obtain ⟨f1, f2, f3⟩ := factorial_facts n k h2 h21
  by_cases hnk : n < k
  · rw [f1 hnk, if_pos (by omega)]
  · by_cases hn : n ≤ 20
    · rw [f2 (by omega) hn, if_pos hn]
    · rw [f3 (by omega) (by omega), if_neg hn]

theorem factorial_snd (n : Nat) (c : List Int) (h : GoodCache c) :
    GoodCache (factorial n c).2 ∧ c <+: (factorial n c).2 := by
  obtain ⟨k, h2, h21, rfl⟩ := h
  obtain ⟨f1, f2, f3⟩ := factorial_facts n k h2 h21
  by_cases hnk : n < k
  · rw [f1 hnk]
    exact ⟨⟨k, h2, h21, rfl⟩, List.prefix_rfl⟩
  · by_cases hn : n ≤ 20
    · rw [f2 (by omega) hn]
      exact ⟨⟨n + 1, by omega, by omega, rfl⟩, facts_prefix k (n + 1) (by omega)⟩
    · rw [f3 (by omega) (by omega)]
      exact ⟨⟨21, by omega, by omega, rfl⟩, facts_prefix k 21 (by omega)⟩

theorem evalTokens_fst_congr (tokens : List String) (stack : List Int)
    (c d : List Int) (hc : GoodCache c) (hd : GoodCache d) :
    (evalTokens tokens stack c).1 = (evalTokens tokens stack d).1 := by
  induction tokens generalizing stack c d with
  | nil => rcases stack with _ | ⟨v, _ | ⟨w, t⟩⟩ <;> rfl
  | cons token rest ih =>
    by_cases hop : token = "+" ∨ token = "-" ∨ token = "*" ∨ token = "/"
    · rcases stack with _ | ⟨operand2, _ | ⟨operand1, stackRest⟩⟩
      · simp only [evalTokens, if_pos hop]
      · simp only [evalTokens, if_pos hop]
      · simp only [evalTokens, if_pos hop]
        by_cases hz : token = "/" ∧ operand2 = 0
        · rw [if_pos hz, if_pos hz]
        · rw [if_neg hz, if_neg hz]
          exact ih _ c d hc hd
    · by_cases hbang : token = "!"
      · rcases stack with _ | ⟨a, stackRest⟩
        · simp only [evalTokens, if_neg hop, if_pos hbang]
        · simp only [evalTokens, if_neg hop, if_pos hbang]
          rcases hfc : factorial (i64ToUsize a) c with ⟨rc, c2⟩
          rcases hfd : factorial (i64ToUsize a) d with ⟨rd, d2⟩
          have hr : rc = rd := by
            have e1 := factorial_fst (i64ToUsize a) c hc
            have e2 := factorial_fst (i64ToUsize a) d hd
            rw [hfc] at e1
            rw [hfd] at e2
            exact e1.trans e2.symm
          have hg1 : GoodCache c2 := by
            have := (factorial_snd (i64ToUsize a) c hc).1
            rwa [hfc] at this
          have hg2 : GoodCache d2 := by
            have := (factorial_snd (i64ToUsize a) d hd).1
            rwa [hfd] at this
          subst hr
          cases rc with
          | ok f => exact ih _ c2 d2 hg1 hg2
          | error e => rfl
      · simp only [evalTokens, if_neg hop, if_neg hbang]
        cases hp : parseI64 token with
        | none => rfl
        | some num => exact ih _ c d hc hd

theorem evalTokens_snd_good (tokens : List String) (stack : List Int)
    (c : List Int) (hc : GoodCache c) :
    GoodCache (evalTokens tokens stack c).2 := by
  induction tokens generalizing stack c with
  | nil => rcases stack with _ | ⟨v, _ | ⟨w, t⟩⟩ <;> exact hc
  | cons token rest ih =>
    by_cases hop : token = "+" ∨ token = "-" ∨ token = "*" ∨ token = "/"
    · rcases stack with _ | ⟨operand2, _ | ⟨operand1, stackRest⟩⟩
      · simp only [evalTokens, if_pos hop]
        exact hc
      · simp only [evalTokens, if_pos hop]
        exact hc
      · simp only [evalTokens, if_pos hop]
        by_cases hz : token = "/" ∧ operand2 = 0
        · rw [if_pos hz]
          exact hc
        · rw [if_neg hz]
          exact ih _ c hc
    · by_cases hbang : token = "!"
      · rcases stack with _ | ⟨a, stackRest⟩
        · simp only [evalTokens, if_neg hop, if_pos hbang]
          exact hc
        · simp only [evalTokens, if_neg hop, if_pos hbang]
          rcases hfc : factorial (i64ToUsize a) c with ⟨rc, c2⟩
          have hg1 : GoodCache c2 := by
            have := (factorial_snd (i64ToUsize a) c hc).1
            rwa [hfc] at this
          cases rc with
          | ok f => exact ih _ c2 hg1
          | error e => exact hg1
      · simp only [evalTokens, if_neg hop, if_neg hbang]
        cases hp : parseI64 token with
        | none => exact hc
        | some num => exact ih _ c hc

theorem flushNumBuffer_fst (numberBuffer : List Char) (output : List String) :
    (flushNumBuffer numberBuffer output).1 = [] := by
  cases numberBuffer <;> rfl

theorem drainStack_mem (stack : List Char) (h : '(' ∈ stack)
    (output : List String) :
    drainStack stack output = .error .MalformedExpression := by
  induction stack generalizing output with
  | nil => cases h
  | cons op rest ih =>
    by_cases hop : op = '('
    · simp only [drainStack, if_pos hop]
    · rcases List.mem_cons.mp h with h1 | h2
      · exact absurd h1.symm hop
      · simp only [drainStack, if_neg hop]
        exact ih h2 _

theorem popUntilParen_no_paren (stack : List Char) (h : '(' ∉ stack)
    (output : List String) :
    popUntilParen stack output =
      ([], output ++ stack.map (fun op => String.mk [op])) := by
  induction stack generalizing output with
  | nil => simp [popUntilParen]
  | cons op rest ih =>
    rw [List.mem_cons] at h
    push_neg at h
    obtain ⟨h1, h2⟩ := h
    have hop : ¬ op = '(' := fun he => h1 he.symm
    simp only [popUntilParen, if_neg hop]
    rw [ih h2]
    simp

theorem shouldPop_eq_false_iff (incoming op : Char) :
    shouldPop incoming op = false ↔
      (op = '(' ∨ hasHigherPrecedence op incoming = false) := by
  unfold shouldPop
  cases hh : hasHigherPrecedence op incoming <;>
    by_cases hp : op = '(' <;> simp [hp, hh]

theorem popWhile_take_drop (incoming : Char) (stack : List Char)
    (output : List String) :
    popWhile incoming stack output =
      (stack.dropWhile (shouldPop incoming),
       output ++ (stack.takeWhile (shouldPop incoming)).map
         (fun op => String.mk [op])) := by
  induction stack generalizing output with
  | nil => simp [popWhile]
  | cons op rest ih =>
    by_cases hsp : shouldPop incoming op = true
    · have hcond : ¬ (op = '(' ∨ hasHigherPrecedence op incoming = false) := by
        intro hc
        rw [← shouldPop_eq_false_iff incoming op] at hc
        rw [hsp] at hc
        cases hc
      simp only [popWhile, if_neg hcond]
      rw [ih]
      simp [List.dropWhile_cons, List.takeWhile_cons, hsp]
    · have hsp2 : shouldPop incoming op = false := by
        cases hb : shouldPop incoming op
        · rfl
        · exact absurd hb hsp
      have hcond : op = '(' ∨ hasHigherPrecedence op incoming = false :=
        (shouldPop_eq_false_iff incoming op).mp hsp2
      simp only [popWhile, if_pos hcond]
      simp [List.dropWhile_cons, List.takeWhile_cons, hsp2]

theorem evalTokens_bang (tokens : List String) (a : Int)
    (stack cache : List Int) :
    evalTokens ("!" :: tokens) (a :: stack) cache =
      match factorial (i64ToUsize a) cache with
      | (.ok fact, cache2) => evalTokens tokens (fact :: stack) cache2
      | (.error e, cache2) => (.error e, cache2) := rfl

theorem i64ToUsize_neg (a : Int) (ha : a < 0) (hmin : i64Min ≤ a) :
    9223372036854775808 ≤ i64ToUsize a := by
  unfold i64ToUsize usizeMod
  unfold i64Min at hmin
  omega

/-- C1, counterexample: converting "2+3*4-5/2" to postfix and evaluating
the postfix form does not yield 11 (the crate doc example asserts 11, but
the implemented conversion and evaluation give 12). -/
theorem C1_counterexample :
    (evalInfix "2+3*4-5/2" (facts 2)).1 ≠ Except.ok 11 := by decide

/-- C1, amended: converting the infix expression "2+3*4-5/2" to postfix
yields "2 3 4 * 5 2 / - +", and evaluating that postfix form yields the
integer 12. -/
theorem C1_amended :
    infixToPostfix "2+3*4-5/2" = .ok "2 3 4 * 5 2 / - +"
    ∧ (evalInfix "2+3*4-5/2" (facts 2)).1 = Except.ok 12 :=
  ⟨rfl, rfl⟩

/-- C2: when a binary operator is read, the converter pops stacked
operators to the output exactly while the stack top is not a left
parenthesis and has strictly greater precedence (so an equal-precedence
top is never popped), then pushes the incoming operator on the stack. -/
theorem C2_operator_step (ch : Char)
    (hch : ch = '+' ∨ ch = '-' ∨ ch = '*' ∨ ch = '/')
    (cs numberBuffer : List Char) (stack : List Char)
    (output : List String) :
    popWhile ch stack output =
      (stack.dropWhile (shouldPop ch),
       output ++ (stack.takeWhile (shouldPop ch)).map
         (fun op => String.mk [op]))
    ∧ (∀ op ∈ stack.takeWhile (shouldPop ch), precedence ch < precedence op)
    ∧ (∀ op : Char, precedence op = precedence ch → shouldPop ch op = false)
    ∧ infixToPostfixAux (ch :: cs) numberBuffer stack output =
        infixToPostfixAux cs (flushNumBuffer numberBuffer output).1
          (ch :: (popWhile ch stack (flushNumBuffer numberBuffer output).2).1)
          (popWhile ch stack (flushNumBuffer numberBuffer output).2).2 := by
  refine ⟨popWhile_take_drop ch stack output, ?_, ?_, ?_⟩
  · intro op hmem
    have hp := List.mem_takeWhile_imp hmem
    unfold shouldPop hasHigherPrecedence at hp
    rw [Bool.and_eq_true] at hp
    exact of_decide_eq_true hp.2
  · intro op hpe
    unfold shouldPop hasHigherPrecedence
    rw [hpe]
    simp
  · rcases hch with h | h | h | h <;> subst h <;> rfl

/-- C2 witness: at the concrete input '+' over the stack ['*', '('], the
multiplication is popped (strictly greater precedence) and the parenthesis
stops the loop. -/
theorem C2_witness :
    ('+' = '+' ∨ '+' = '-' ∨ '+' = '*' ∨ '+' = '/')
    ∧ popWhile '+' [ '*', '(' ] [] = ([ '(' ], ["*"]) :=
  ⟨Or.inl rfl,
    ((C2_operator_step '+' (Or.inl rfl) [] [] [ '*', '(' ] []).1).trans
      (by decide)⟩

/-- C3: converting the infix expression "3+4*2" to postfix yields
"3 4 2 * +", and evaluating the resulting postfix form yields 11. -/
theorem C3_roundtrip :
    infixToPostfix "3+4*2" = .ok "3 4 2 * +"
    ∧ (computeExpression "3 4 2 * +" (facts 2)).1 = Except.ok 11
    ∧ (evalInfix "3+4*2" (facts 2)).1 = Except.ok 11 :=
  ⟨rfl, rfl, rfl⟩

/-- C4: the factorial cache is seeded with [1, 1]; every factorial call
only appends to the cache (the old cache is a prefix of the new one), the
cache stays a reachable good state, and every populated index i holds
i factorial. -/
theorem C4_cache_invariant (n : Nat) (c : List Int) (hc : GoodCache c) :
    facts 2 = [1, 1]
    ∧ c <+: (factorial n c).2
    ∧ GoodCache (factorial n c).2
    ∧ ∀ i (hi : i < ((factorial n c).2).length),
        ((factorial n c).2).get ⟨i, hi⟩ = (Nat.factorial i : Int) := by
  obtain ⟨hg, hp⟩ := factorial_snd n c hc
  refine ⟨rfl, hp, hg, ?_⟩
  obtain ⟨k, -, -, he⟩ := hg
  intro i
  rw [he]
  intro hi
  exact facts_get k i hi

/-- C4 witness: the invariant instantiated at n = 3 on the seeded cache. -/
theorem C4_witness :
    GoodCache (facts 2)
    ∧ facts 2 = [1, 1]
    ∧ facts 2 <+: (factorial 3 (facts 2)).2
    ∧ GoodCache (factorial 3 (facts 2)).2 := by
  have h := C4_cache_invariant 3 (facts 2) goodCache_seed
  exact ⟨goodCache_seed, h.1, h.2.1, h.2.2.1⟩

/-- C5: on a reachable cache every factorial argument up to 20 succeeds
with the exact factorial; every argument of 21 or more fails with the
overflow error, the prior cache entries survive the failure, and a
subsequent query of at most 20 is answered from the cache without
modifying it; evaluating "5!" end to end yields 120. -/
theorem C5_factorial_overflow (n : Nat) (c : List Int) (hc : GoodCache c) :
    (∀ m : Nat, m ≤ 20 → (factorial m c).1 = Except.ok (Nat.factorial m : Int))
    ∧ (21 ≤ n →
        (factorial n c).1 = Except.error ErrorKind.Overflow
        ∧ c <+: (factorial n c).2
        ∧ ∀ m : Nat, m ≤ 20 →
            factorial m ((factorial n c).2) =
              (Except.ok (Nat.factorial m : Int), (factorial n c).2))
    ∧ (evalInfix "5!" (facts 2)).1 = Except.ok 120 := by
  refine ⟨fun m hm => ?_, fun hn => ?_, rfl⟩
  · rw [factorial_fst m c hc, if_pos hm]
  · refine ⟨by rw [factorial_fst n c hc, if_neg (by omega : ¬ n ≤ 20)],
      (factorial_snd n c hc).2, fun m hm => ?_⟩
    obtain ⟨k, h2, h21, hck⟩ := hc
    subst hck
    obtain ⟨-, -, f3⟩ := factorial_facts n k h2 h21
    rw [f3 (by omega) hn]
    exact (factorial_facts m 21 (by omega) (by omega)).1 (by omega)

/-- C5 witness: the overflow bound instantiated at n = 21 on the seeded
cache, and the concrete value 5! = 120. -/
theorem C5_witness :
    GoodCache (facts 2) ∧ 21 ≤ 21
    ∧ (factorial 21 (facts 2)).1 = Except.error ErrorKind.Overflow
    ∧ (factorial 5 (facts 2)).1 = Except.ok 120 := by
  have h := C5_factorial_overflow 21 (facts 2) goodCache_seed
  refine ⟨goodCache_seed, by omega, (h.2.1 (by omega)).1, ?_⟩
  exact (h.1 5 (by omega)).trans (by decide)

/-- C6: a division token whose right (first-popped) operand is zero makes
the evaluation fail with the division-by-zero error, leaving the cache
untouched; "10/0" converts successfully to "10 0 /" and then fails with
division-by-zero. -/
theorem C6_division_by_zero (tokens : List String) (operand1 : Int)
    (stackRest : List Int) (cache : List Int) :
    evalTokens ("/" :: tokens) (0 :: operand1 :: stackRest) cache =
      (Except.error ErrorKind.DivisionByZero, cache)
    ∧ infixToPostfix "10/0" = .ok "10 0 /"
    ∧ (computeExpression "10 0 /" (facts 2)).1 =
        Except.error ErrorKind.DivisionByZero :=
  ⟨rfl, rfl, rfl⟩

/-- C7: when the scan reaches end of input with a left parenthesis still
on the operator stack, the final drain fails with malformed-expression;
in particular "(1+2" fails that way. -/
theorem C7_unbalanced_open (numberBuffer : List Char) (stack : List Char)
    (output : List String) (h : '(' ∈ stack) :
    infixToPostfixAux [] numberBuffer stack output =
      .error .MalformedExpression
    ∧ infixToPostfix "(1+2" = .error .MalformedExpression :=
  ⟨drainStack_mem stack h _, rfl⟩

/-- C7 witness: end of input with a bare left parenthesis on the stack. -/
theorem C7_witness :
    '(' ∈ [ '(' ]
    ∧ infixToPostfixAux [] [] [ '(' ] [] = .error .MalformedExpression :=
  ⟨by decide, (C7_unbalanced_open [] [ '(' ] [] (by decide)).1⟩

/-- C8: a right parenthesis with no matching left parenthesis on the
operator stack does not fail: the whole stack is drained to the output and
the scan continues on the remaining input. -/
theorem C8_unmatched_close (cs numberBuffer : List Char)
    (stack : List Char) (output : List String) (h : '(' ∉ stack) :
    popUntilParen stack output =
      ([], output ++ stack.map (fun op => String.mk [op]))
    ∧ infixToPostfixAux (')' :: cs) numberBuffer stack output =
        infixToPostfixAux cs [] []
          ((flushNumBuffer numberBuffer output).2 ++
            stack.map (fun op => String.mk [op])) := by
  refine ⟨popUntilParen_no_paren stack h output, ?_⟩
  have hstep : infixToPostfixAux (')' :: cs) numberBuffer stack output =
      infixToPostfixAux cs (flushNumBuffer numberBuffer output).1
        (popUntilParen stack (flushNumBuffer numberBuffer output).2).1
        (popUntilParen stack (flushNumBuffer numberBuffer output).2).2 := rfl
  rw [hstep, flushNumBuffer_fst, popUntilParen_no_paren stack h]

/-- C8 witness: a closing parenthesis over the parenthesis-free stack
['+'] silently drains the stack to the output. -/
theorem C8_witness :
    '(' ∉ [ '+' ]
    ∧ popUntilParen [ '+' ] ["1"] = ([], ["1", "+"]) :=
  ⟨by decide,
    ((C8_unmatched_close [] [] [ '+' ] ["1"] (by decide)).1).trans
      (by decide)⟩

/-- C9: evaluating the same postfix text twice yields the same result both
times, regardless of the factorial cache state left behind by the first
evaluation (starting from any reachable cache state). -/
theorem C9_idempotent (s : String) (c : List Int) (hc : GoodCache c) :
    (computeExpression s ((computeExpression s c).2)).1 =
      (computeExpression s c).1 :=
  evalTokens_fst_congr (splitWhitespace s) [] _ c
    (evalTokens_snd_good (splitWhitespace s) [] c hc) hc

/-- C9 witness: evaluating the postfix text "5 !" twice from the seeded
cache. -/
theorem C9_witness :
    GoodCache (facts 2)
    ∧ (computeExpression "5 !" ((computeExpression "5 !" (facts 2)).2)).1 =
        (computeExpression "5 !" (facts 2)).1 :=
  ⟨goodCache_seed, C9_idempotent "5 !" (facts 2) goodCache_seed⟩

/-- C10: a factorial token popping a negative i64 operand casts it to a
huge unsigned index (at least 2^63), and the evaluation fails with the
overflow error: no result is produced. -/
theorem C10_negative_operand (a : Int) (tokens : List String)
    (stack : List Int) (c : List Int) (ha : a < 0) (hmin : i64Min ≤ a)
    (hc : GoodCache c) :
    2 ^ 63 ≤ i64ToUsize a
    ∧ (evalTokens ("!" :: tokens) (a :: stack) c).1 =
        Except.error ErrorKind.Overflow := by
  have hbig := i64ToUsize_neg a ha hmin
  have h20 : ¬ i64ToUsize a ≤ 20 := by omega
  refine ⟨by calc (2 : Nat) ^ 63 = 9223372036854775808 := by norm_num
    _ ≤ i64ToUsize a := hbig, ?_⟩
  rw [evalTokens_bang]
  rcases hf : factorial (i64ToUsize a) c with ⟨r, c2⟩
  have e1 := factorial_fst (i64ToUsize a) c hc
  rw [hf, if_neg h20] at e1
  have hr : r = Except.error ErrorKind.Overflow := e1
  subst hr
  rfl

/-- C10 witness: the factorial token applied to the operand -1 on the
seeded cache. -/
theorem C10_witness :
    (-1 : Int) < 0 ∧ i64Min ≤ (-1 : Int) ∧ GoodCache (facts 2)
    ∧ 2 ^ 63 ≤ i64ToUsize (-1)
    ∧ (evalTokens ["!"] [(-1 : Int)] (facts 2)).1 =
        Except.error ErrorKind.Overflow := by
  have h := C10_negative_operand (-1) [] [] (facts 2) (by decide)
    (by decide) goodCache_seed
  exact ⟨by decide, by decide, goodCache_seed, h.1, h.2⟩

end Kalkulator
